import Mathlib

/-!
Verification development for the I-JEPA few-shot repository (`ijepa.py`).

The module `I_JEPA` is shallowly embedded: tensors are nested lists of
rationals, the flat parameter vectors of the three sub-networks are lists of
(data, requires_grad) pairs, the momentum generator is an indexed finite
scheduler, and the (externally defined) vision-transformer encoder/predictor
applications together with the square root used by the normalisation layers
are abstract function parameters collected in a `Nets` record.  Fallible
steps (exhaustion of the momentum generator, i.e. `StopIteration`) are
modelled with `Except`.
-/

namespace IJepa

/-- A feature vector (the last tensor dimension). -/
abbrev Vec := List ℚ

/-- A 2-D tensor: a batch of feature vectors. -/
abbrev Mat := List Vec

/-- A 3-D tensor: batch × patches × features. -/
abbrev Tensor3 := List Mat

/-- A patch-index mask tensor of shape B × K: for every batch element, the
list of kept patch indices. -/
abbrev Mask := List (List ℕ)

/-- One network parameter: its value and its `requires_grad` flag. -/
structure Param where
  data : ℚ
  requiresGrad : Bool
deriving Repr, DecidableEq, Inhabited

/-- The data of a parameter list. -/
def paramData (ps : List Param) : List ℚ := ps.map Param.data

/-- `self.ipe = 9600` from `I_JEPA.__init__`. -/
def ipe : ℕ := 9600

/-- The i-th value of the generator
`(0.996 + i * (1.0 - 0.996) / (self.ipe * num_epochs) for i in range(int(self.ipe * num_epochs) + 1))`. -/
def momValue (numEpochs i : ℕ) : ℚ :=
  996 / 1000 + i * (1 - 996 / 1000) / (ipe * numEpochs)

/-- The state of the momentum generator: the epoch count it was built with
and how many values were already drawn. -/
structure MomSched where
  numEpochs : ℕ
  idx : ℕ
deriving Repr, DecidableEq

/-- Python `next` on the momentum generator: it yields values for
`i in range(ipe * numEpochs + 1)` and then raises `StopIteration` (`none`). -/
def MomSched.next (s : MomSched) : Option (ℚ × MomSched) :=
  if s.idx < ipe * s.numEpochs + 1 then
    some (momValue s.numEpochs s.idx, ⟨s.numEpochs, s.idx + 1⟩)
  else none

/-- The mutable state of an `I_JEPA` module: the flat parameter lists of the
student encoder, the predictor and the target encoder, and the momentum
generator. -/
structure I_JEPA where
  encoderParams : List Param
  predictorParams : List Param
  targetParams : List Param
  sched : MomSched
deriving Repr, DecidableEq

/-- `for param in self.target_encoder.parameters(): param.requires_grad = False`. -/
def setRequiresGradFalse (ps : List Param) : List Param :=
  ps.map (fun p => ⟨p.data, false⟩)

/-- `I_JEPA.__init__`: load the (freshly initialised) encoder and predictor,
deep-copy the encoder into the target encoder, freeze the copy and create the
momentum generator.  The initial weights produced by `load_backbone` are the
abstract lists `encInit` and `predInit`. -/
def I_JEPA.init (numEpochs : ℕ) (encInit predInit : List ℚ) : I_JEPA :=
  let enc := encInit.map (fun d => ⟨d, true⟩)
  let pred := predInit.map (fun d => ⟨d, true⟩)
  ⟨enc, pred, setRequiresGradFalse enc, ⟨numEpochs, 0⟩⟩

/-- `for param_q, param_k in zip(self.encoder.parameters(), self.target_encoder.parameters()):
param_k.data.mul_(m).add_((1.-m) * param_q.detach().data)`.
`zip` truncates to the shorter list; the remaining target parameters keep
their value, and the `requires_grad` flag is never touched. -/
def emaUpdate (m : ℚ) : List Param → List Param → List Param
  | q :: qs, k :: ks => ⟨k.data * m + (1 - m) * q.data, k.requiresGrad⟩ :: emaUpdate m qs ks
  | [], ks => ks
  | _ :: _, [] => []

/-- Mean of a list of rationals (division by the length; `0` on `[]`). -/
def meanQ (v : List ℚ) : ℚ := v.sum / v.length

/-- `F.layer_norm(h, (h.size(-1),))` on one feature vector: subtract the
mean and divide by the square root of the biased variance plus the default
eps `1e-5`.  The square root is the abstract `sqrtF`. -/
def layerNormVec (sqrtF : ℚ → ℚ) (v : Vec) : Vec :=
  let μ := meanQ v
  let σ2 := meanQ (v.map (fun a => (a - μ) ^ 2))
  v.map (fun a => (a - μ) / sqrtF (σ2 + 1 / 100000))

/-- `F.layer_norm` over the feature dimension of a B × N × D tensor. -/
def layerNormLast (sqrtF : ℚ → ℚ) (t : Tensor3) : Tensor3 :=
  t.map (fun rows => rows.map (layerNormVec sqrtF))

/-- Modelled from the spec: `apply_masks` (from `models/ijepa_utils.py`, a
repository file not present under the sources) — part of "the masked-patch
target/context construction": for every mask in the list it selects, per
batch element, the patches of `x` with the masked indices, and concatenates
the results along the batch dimension. -/
def apply_masks (x : Tensor3) (masks : List Mask) : Tensor3 :=
  (masks.map (fun m =>
    List.zipWith (fun rows idxs => idxs.map (fun i => rows.getD i [])) x m)).flatten

/-- Modelled from the spec: `repeat_interleave_batch` (from
`models/ijepa_utils.py`, a repository file not present under the sources):
it splits `x` into `x.length / B` consecutive blocks of `B` batch rows and
concatenates `rep` copies of each block along the batch dimension. -/
def repeat_interleave_batch (x : Tensor3) (B rep : ℕ) : Tensor3 :=
  ((List.range (x.length / B)).map
    (fun i => ((List.range rep).map (fun _ => (x.drop (i * B)).take B)).flatten)).flatten

/-- Pointwise smooth-L1 (Huber) with the default `beta = 1.0`. -/
def smoothL1 (a b : ℚ) : ℚ :=
  if |a - b| < 1 then |a - b| ^ 2 / 2 else |a - b| - 1 / 2

/-- `F.smooth_l1_loss(z, h)` with the default mean reduction, on the
flattened tensors. -/
def smooth_l1_loss (z h : Tensor3) : ℚ :=
  meanQ (List.zipWith smoothL1 z.flatten.flatten h.flatten.flatten)

/-- The abstract network applications the module is written against: the
vision-transformer encoder and predictor live in `backbone/`, outside the
sources, so they enter the embedding as abstract functions of the flat
parameter vector; `sqrtF` is the real square root used by the normalisation
layers.  A batch of images is a `List Img` for an abstract image type. -/
structure Nets (Img : Type) where
  targetEncF : List ℚ → List Img → Tensor3
  encF : List ℚ → List Img → List Mask → Tensor3
  predF : List ℚ → Tensor3 → List Mask → List Mask → Tensor3
  sqrtF : ℚ → ℚ

/-- One training input `(udata, masks_enc, masks_pred)` of `I_JEPA.forward`
(after the `.to(device)` moves, which are identities here). -/
structure Inputs (Img : Type) where
  imgs : List Img
  masksEnc : List Mask
  masksPred : List Mask

/-- The inner function `forward_target` of `I_JEPA.forward`, applied to the
given (already EMA-updated) target-encoder parameter data: encode the full
images, layer-normalise over the feature dimension, gather the predicted
patches and repeat for every context mask.  It runs under `no_grad`. -/
def forward_target {Img : Type} (nets : Nets Img) (targetData : List ℚ)
    (inp : Inputs Img) : Tensor3 :=
  let h := nets.targetEncF targetData inp.imgs
  let h2 := layerNormLast nets.sqrtF h
  let B := h2.length
  let h3 := apply_masks h2 inp.masksPred
  repeat_interleave_batch h3 B inp.masksEnc.length

/-- The inner function `forward_context` of `I_JEPA.forward`:
`z = self.encoder(imgs, masks_enc); z = self.predictor(z, masks_enc, masks_pred)`. -/
def forward_context {Img : Type} (nets : Nets Img) (encData predData : List ℚ)
    (inp : Inputs Img) : Tensor3 :=
  let z := nets.encF encData inp.imgs inp.masksEnc
  nets.predF predData z inp.masksEnc inp.masksPred

/-- `I_JEPA.forward`: draw the next momentum value (raising `StopIteration`
when the generator is exhausted — then nothing has been mutated), EMA-update
the target encoder in place, build targets and context and return the
smooth-L1 loss together with the new module state. -/
def I_JEPA.forward {Img : Type} (nets : Nets Img) (s : I_JEPA) (inp : Inputs Img) :
    I_JEPA × Except Unit ℚ :=
  match s.sched.next with
  | none => (s, .error ())
  | some (m, sched2) =>
    let newTarget := emaUpdate m s.encoderParams s.targetParams
    let h := forward_target nets (paramData newTarget) inp
    let z := forward_context nets (paramData s.encoderParams)
      (paramData s.predictorParams) inp
    (⟨s.encoderParams, s.predictorParams, newTarget, sched2⟩,
     .ok (smooth_l1_loss z h))

/-- Componentwise sum of two feature vectors (`+` on tensors of equal shape). -/
def vecAdd (u v : Vec) : Vec := List.zipWith (· + ·) u v

/-- Sum of a non-empty list of equal-length vectors (`torch.sum(_, dim=...)`);
`[]` on the empty list. -/
def sumVecs : List Vec → Vec
  | [] => []
  | v :: vs => vs.foldl vecAdd v

/-- `torch.mean(_, dim=1)` on one batch element: the componentwise mean of
its patch embeddings. -/
def meanDim1 (rows : List Vec) : Vec :=
  (sumVecs rows).map (fun a => a / rows.length)

/-- `torch.mean(t, dim=1)`: B × N × D → B × D. -/
def meanPool (t : Tensor3) : Mat := t.map meanDim1

/-- A fresh `nn.BatchNorm1d(D, affine=False, eps=1e-6)` in its default
training mode: normalise every feature by the batch mean and the square root
of the biased batch variance plus eps. -/
def batchNorm1d (sqrtF : ℚ → ℚ) (x : Mat) : Mat :=
  let μ := meanDim1 x
  let σ2 := meanDim1 (x.map (fun row => List.zipWith (fun a m => (a - m) ^ 2) row μ))
  x.map (fun row =>
    List.zipWith (fun d v => d / sqrtF (v + 1 / 1000000))
      (List.zipWith (fun a m => a - m) row μ) σ2)

/-- Inner product of two feature vectors. -/
def dot (u v : Vec) : ℚ := (List.zipWith (· * ·) u v).sum

/-- `F.normalize` on one vector: divide by the L2 norm clamped below by the
default eps `1e-12`; the norm is `sqrtF` of the sum of squares. -/
def l2normalize (sqrtF : ℚ → ℚ) (v : Vec) : Vec :=
  v.map (fun a => a / max (sqrtF ((v.map (fun b => b ^ 2)).sum)) (1 / 1000000000000))

/-- Index of the first maximum, scanning the remaining list: `torch.max(_, 1)`
returns the index of the first maximal entry. -/
def argmaxGo (i best : ℕ) (bv : ℚ) : List ℚ → ℕ
  | [] => best
  | a :: rest => if bv < a then argmaxGo (i + 1) i a rest else argmaxGo (i + 1) best bv rest

/-- `_, predicted = torch.max(logits, 1)` on one row of logits. -/
def argmaxIdx : List ℚ → ℕ
  | [] => 0
  | a :: rest => argmaxGo 1 0 a rest

/-- The elements of `x` whose label is `c`, in order. -/
def selectClass {α : Type} (x : List α) (ys : List ℕ) (c : ℕ) : List α :=
  ((x.zip ys).filter (fun p => p.2 == c)).map Prod.fst

/-- Modelled from the spec: `split_support_query_set` (from `utils.py`, a
repository file not present under the sources), with `num_tasks=1`, as the
spec's few-shot protocols use it: per class `c < 5` the first `numShots`
examples of class `c` form the support set and the remaining examples of
class `c` form the query set, support and query each ordered class by class,
with the matching labels.  Returns `(x_support, x_query, y_support, y_query)`. -/
def split_support_query_set {α : Type} (numShots : ℕ) (x : List α) (ys : List ℕ) :
    List α × List α × List ℕ × List ℕ :=
  let sup := ((List.range 5).map (fun c => (selectClass x ys c).take numShots)).flatten
  let qry := ((List.range 5).map (fun c => (selectClass x ys c).drop numShots)).flatten
  let ysup := ((List.range 5).map
    (fun c => List.replicate ((selectClass x ys c).take numShots).length c)).flatten
  let yqry := ((List.range 5).map
    (fun c => List.replicate ((selectClass x ys c).drop numShots).length c)).flatten
  (sup, qry, ysup, yqry)

/-- `torch.sum(x_support.view(5, num_shots, -1), dim=1)`: the support rows,
grouped into 5 consecutive blocks of `numShots` rows, each block summed. -/
def groupSums (numShots : ℕ) (xs : Mat) : Mat :=
  (List.range 5).map (fun c => sumVecs ((xs.drop (c * numShots)).take numShots))

/-- The running `(predicted == y_query).sum().item()` accumulation of the
evaluation loops: fold `+1` over the matching (prediction, label) pairs. -/
def countCorrect (preds : List ℕ) (ys : List ℕ) : ℕ :=
  (preds.zip ys).foldl (fun acc pr => acc + if pr.1 = pr.2 then 1 else 0) 0

/-- `I_JEPA.fewshot_acc`: under `no_grad`, mean-pool the target-encoder
embeddings, batch-normalise, split into support and query, L2-normalise,
build one prototype per class as the normalised block sum of the support,
classify every query by the largest inner product with the prototypes and
return `100 * correct / total`.  The module state is returned unchanged:
the function writes no parameter. -/
def I_JEPA.fewshot_acc {Img : Type} (nets : Nets Img) (s : I_JEPA)
    (numShots : ℕ) (inputs : List Img) (labels : List ℕ) : ℚ × I_JEPA :=
  let x := meanPool (nets.targetEncF (paramData s.targetParams) inputs)
  let x2 := batchNorm1d nets.sqrtF x
  let t := split_support_query_set numShots x2 labels
  let xs := t.1.map (l2normalize nets.sqrtF)
  let xq := t.2.1.map (l2normalize nets.sqrtF)
  let yq := t.2.2.2
  let protos := (groupSums numShots xs).map (l2normalize nets.sqrtF)
  let preds := xq.map (fun q => argmaxIdx (protos.map (fun w => dot q w)))
  let correct := countCorrect preds yq
  (100 * (correct : ℚ) / yq.length, s)

/-- The ingredients of the linear-probe evaluation that live outside the
sources or outside exact rational arithmetic: the fresh classifier head's
initial parameters (`nn.Linear` random init), its forward application
(`BatchNorm1d(affine=False)` then `Linear`) producing class scores, the
autograd gradient of the cross-entropy loss with respect to the classifier
parameters on a mini-batch, and the `np.random.permutation` stream. -/
structure FtOracle where
  clsInit : List ℚ
  clsApply : List ℚ → Vec → List ℚ
  gradCE : List ℚ → Mat → List ℕ → List ℚ
  permF : ℕ → List ℕ

/-- One `optimizer.step()` of `optim.SGD(classifier.parameters(), lr=0.01,
momentum=0.9, weight_decay=0.001)`: add the weight-decay term to the
gradient, update the momentum buffer (initialised to the first gradient) and
descend. -/
def sgdStep (θ : List ℚ) (buf : Option (List ℚ)) (g : List ℚ) :
    List ℚ × Option (List ℚ) :=
  let g2 := List.zipWith (fun gi ti => gi + 1 / 1000 * ti) g θ
  let buf2 := match buf with
    | none => g2
    | some b => List.zipWith (fun bi gi => 9 / 10 * bi + gi) b g2
  (List.zipWith (fun ti bi => ti - 1 / 100 * bi) θ buf2, some buf2)

/-- The 100-epoch fine-tuning loop of `ft_fewshot_acc`: in every epoch, chunk
a permutation of `range(train_num_ways * num_shots)` into batches of 4 and
run one SGD step per batch on the classifier parameters only.  The support
features are detached constants. -/
def ftTrain (oracle : FtOracle) (shots : Mat) (ysup : List ℕ)
    (ways numShots : ℕ) : List ℚ :=
  ((List.range 100).foldl (fun st e =>
    let rid := (oracle.permF e).take (ways * numShots)
    let batches := (List.range (rid.length / 4)).map (fun i => (rid.drop (i * 4)).take 4)
    batches.foldl (fun st2 id =>
      let xb := id.map (fun j => shots.getD j [])
      let yb := id.map (fun j => ysup.getD j 0)
      sgdStep st2.1 st2.2 (oracle.gradCE st2.1 xb yb)) st)
    (oracle.clsInit, (none : Option (List ℚ)))).1

/-- `I_JEPA.ft_fewshot_acc` (linear probing): for every batch of the loader,
split into support and query, deep-copy the target encoder into a local
`net`, compute the support and query features once under `no_grad`, fine-tune
a fresh classifier head on the support features for 100 epochs, score the
queries and accumulate `100 * correct / total`; return the mean over the
loader.  Only the local classifier parameters are ever written; the module
state is returned unchanged. -/
def I_JEPA.ft_fewshot_acc {Img : Type} (nets : Nets Img) (oracle : FtOracle)
    (s : I_JEPA) (loader : List (List Img × List ℕ)) (numShots numWays : ℕ) :
    ℚ × I_JEPA :=
  let totalAcc := loader.foldl (fun tot dp =>
    let t := split_support_query_set numShots dp.1 dp.2
    let netParams := paramData s.targetParams
    let shots := meanPool (nets.targetEncF netParams t.1)
    let queries := meanPool (nets.targetEncF netParams t.2.1)
    let θ := ftTrain oracle shots t.2.2.1 numWays numShots
    let preds := queries.map (fun q => argmaxIdx (oracle.clsApply θ q))
    let correct := countCorrect preds t.2.2.2
    tot + 100 * (correct : ℚ) / t.2.2.2.length) 0
  (totalAcc / loader.length, s)

/-- The public operations of an `I_JEPA` module. -/
inductive Op (Img : Type) where
  | fwd (inp : Inputs Img)
  | fshot (numShots : ℕ) (inputs : List Img) (labels : List ℕ)
  | ftshot (oracle : FtOracle) (loader : List (List Img × List ℕ))
      (numShots numWays : ℕ)

/-- The state transition of one operation (the returned loss or accuracy is
dropped; a `StopIteration` in `forward` leaves the state as it was when the
exception was raised). -/
def step {Img : Type} (nets : Nets Img) (s : I_JEPA) : Op Img → I_JEPA
  | .fwd inp => (I_JEPA.forward nets s inp).1
  | .fshot k x y => (I_JEPA.fewshot_acc nets s k x y).2
  | .ftshot oracle l k w => (I_JEPA.ft_fewshot_acc nets oracle s l k w).2

/-- Run a sequence of operations. -/
def runOps {Img : Type} (nets : Nets Img) (s : I_JEPA) (ops : List (Op Img)) : I_JEPA :=
  ops.foldl (step nets) s

/-- Run `I_JEPA.forward` over a list of successive inputs, stopping at the
first `StopIteration` as the training loop would; returns the final state and
how many calls succeeded. -/
def runForwards {Img : Type} (nets : Nets Img) : I_JEPA → List (Inputs Img) → I_JEPA × ℕ
  | s, [] => (s, 0)
  | s, inp :: rest =>
    match I_JEPA.forward nets s inp with
    | (s2, .ok _) =>
      let r := runForwards nets s2 rest
      (r.1, r.2 + 1)
    | (s2, .error _) => (s2, 0)

/-- The student prediction as the spec words it:
`predictor(encoder(imgs, masks_enc), masks_enc, masks_pred)`. -/
def spec_student_prediction {Img : Type} (nets : Nets Img) (encData predData : List ℚ)
    (inp : Inputs Img) : Tensor3 :=
  nets.predF predData (nets.encF encData inp.imgs inp.masksEnc) inp.masksEnc inp.masksPred

/-- The prediction targets as the spec words them: target-encoder output on
the full images, layer-normalised over the feature dimension, the patches
given by `masks_pred` selected with `apply_masks`, and the result repeated
`len(masks_enc)` times per batch with `repeat_interleave_batch`. -/
def spec_targets {Img : Type} (nets : Nets Img) (targetData : List ℚ)
    (inp : Inputs Img) : Tensor3 :=
  repeat_interleave_batch
    (apply_masks (layerNormLast nets.sqrtF (nets.targetEncF targetData inp.imgs))
      inp.masksPred)
    (nets.targetEncF targetData inp.imgs).length
    inp.masksEnc.length

/-- One prototype per class, as the spec words it: the L2-normalised sum of
that class's `numShots` support embeddings, for each of the 5 classes. -/
def spec_prototypes (sqrtF : ℚ → ℚ) (numShots : ℕ) (sup : Mat) : Mat :=
  (List.range 5).map
    (fun c => l2normalize sqrtF (sumVecs ((sup.drop (c * numShots)).take numShots)))

/-- The predicted class of a query, as the spec words it: the argmax of the
inner products with the prototypes. -/
def spec_predict (protos : Mat) (q : Vec) : ℕ :=
  argmaxIdx (protos.map (fun w => dot q w))

/-- The prototype-based few-shot accuracy as the spec words it: mean-pooled,
batch-normalised embeddings; L2-normalised support and query vectors; one
prototype per class; argmax-of-inner-product prediction; and
`100 * correct / total` over all query examples. -/
def spec_fewshot_acc {Img : Type} (nets : Nets Img) (s : I_JEPA)
    (numShots : ℕ) (inputs : List Img) (labels : List ℕ) : ℚ :=
  let x := batchNorm1d nets.sqrtF (meanPool (nets.targetEncF (paramData s.targetParams) inputs))
  let t := split_support_query_set numShots x labels
  let sup := t.1.map (l2normalize nets.sqrtF)
  let qry := t.2.1.map (l2normalize nets.sqrtF)
  let protos := spec_prototypes nets.sqrtF numShots sup
  100 * (((qry.map (fun q => spec_predict protos q)).zip t.2.2.2).countP
    (fun pr => pr.1 == pr.2) : ℚ) / t.2.2.2.length

/-- All parameters of a list are frozen (`requires_grad == False`). -/
def allFrozen (ps : List Param) : Bool := ps.all (fun p => !p.requiresGrad)

/-- A concrete instantiation of the abstract networks over a unit image
type, used to evaluate the theorems on closed inputs. -/
def testNets : Nets Unit :=
  ⟨fun _ _ => [[[1], [3]]], fun _ _ _ => [[[2]]], fun _ z _ _ => z, id⟩

/-- A concrete module state: one epoch, student weights `[2, 5]`, predictor
weight `[7]`. -/
def testState : I_JEPA := I_JEPA.init 1 [2, 5] [7]

/-- A concrete forward input. -/
def testInputs : Inputs Unit := ⟨[()], [[[0]]], [[[1]]]⟩

/-- A concrete network whose target encoder returns a two-image batch with
one patch and one feature each. -/
def testNets9 : Nets Unit :=
  ⟨fun _ _ => [[[1]], [[2]]], fun _ _ _ => [], fun _ z _ _ => z, id⟩

section Lemmas

/-- Successful `next`: the generator is not exhausted. -/
theorem MomSched.next_eq_of_lt (s : MomSched) (h : s.idx < ipe * s.numEpochs + 1) :
    s.next = some (momValue s.numEpochs s.idx, ⟨s.numEpochs, s.idx + 1⟩) := by
  simp [MomSched.next, h]

/-- Exhausted `next`. -/
theorem MomSched.next_eq_of_ge (s : MomSched) (h : ¬ s.idx < ipe * s.numEpochs + 1) :
    s.next = none := by
  simp [MomSched.next, h]

/-- Characterisation of a successful `forward` call. -/
theorem forward_eq_of_lt {Img : Type} (nets : Nets Img) (s : I_JEPA) (inp : Inputs Img)
    (h : s.sched.idx < ipe * s.sched.numEpochs + 1) :
    I_JEPA.forward nets s inp =
      (⟨s.encoderParams, s.predictorParams,
        emaUpdate (momValue s.sched.numEpochs s.sched.idx) s.encoderParams s.targetParams,
        ⟨s.sched.numEpochs, s.sched.idx + 1⟩⟩,
       .ok (smooth_l1_loss
         (forward_context nets (paramData s.encoderParams) (paramData s.predictorParams) inp)
         (forward_target nets
           (paramData (emaUpdate (momValue s.sched.numEpochs s.sched.idx)
             s.encoderParams s.targetParams)) inp))) := by
  rw [I_JEPA.forward, MomSched.next_eq_of_lt s.sched h]

/-- Characterisation of a failing `forward` call: the state is untouched. -/
theorem forward_eq_of_ge {Img : Type} (nets : Nets Img) (s : I_JEPA) (inp : Inputs Img)
    (h : ¬ s.sched.idx < ipe * s.sched.numEpochs + 1) :
    I_JEPA.forward nets s inp = (s, .error ()) := by
  rw [I_JEPA.forward, MomSched.next_eq_of_ge s.sched h]

/-- Entrywise description of the in-place EMA loop. -/
theorem emaUpdate_getD (m : ℚ) :
    ∀ (qs ks : List Param) (j : ℕ), j < qs.length → j < ks.length →
      (emaUpdate m qs ks).getD j default =
        ⟨(ks.getD j default).data * m + (1 - m) * (qs.getD j default).data,
         (ks.getD j default).requiresGrad⟩ := by
  intro qs
  induction qs with
  | nil => intro ks j hq _; simp at hq
  | cons q qs ih =>
    intro ks j hq hk
    cases ks with
    | nil => simp at hk
    | cons k ks =>
      cases j with
      | zero => simp [emaUpdate]
      | succ j =>
        simp only [emaUpdate, List.getD_cons_succ]
        exact ih ks j (by simpa using hq) (by simpa using hk)

/-- The EMA loop keeps the length of the target parameter list. -/
theorem emaUpdate_length (m : ℚ) :
    ∀ qs ks : List Param, (emaUpdate m qs ks).length = ks.length := by
  intro qs
  induction qs with
  | nil => intro ks; cases ks <;> simp [emaUpdate]
  | cons q qs ih =>
    intro ks
    cases ks with
    | nil => simp [emaUpdate]
    | cons k ks => simp [emaUpdate, ih ks]

end Lemmas

/-- C1: on every call to `I_JEPA.forward`, before the loss is computed,
every parameter of the target encoder is updated to
`m * old + (1 - m) * student` where `m` is the next value drawn from the
momentum scheduler; the returned loss is computed from the already-updated
target parameters. -/
theorem forward_ema_update {Img : Type} (nets : Nets Img) (s : I_JEPA) (inp : Inputs Img)
    (hn : s.sched.idx < ipe * s.sched.numEpochs + 1)
    (hlen : s.encoderParams.length = s.targetParams.length) :
    (I_JEPA.forward nets s inp).1.targetParams =
      emaUpdate (momValue s.sched.numEpochs s.sched.idx) s.encoderParams s.targetParams ∧
    (∀ j : ℕ, j < s.targetParams.length →
      ((I_JEPA.forward nets s inp).1.targetParams.getD j default).data =
        momValue s.sched.numEpochs s.sched.idx * (s.targetParams.getD j default).data +
          (1 - momValue s.sched.numEpochs s.sched.idx) *
            (s.encoderParams.getD j default).data) ∧
    (I_JEPA.forward nets s inp).2 =
      .ok (smooth_l1_loss
        (forward_context nets (paramData s.encoderParams) (paramData s.predictorParams) inp)
        (forward_target nets
          (paramData ((I_JEPA.forward nets s inp).1.targetParams)) inp)) := by
  rw [forward_eq_of_lt nets s inp hn]
  refine ⟨rfl, ?_, rfl⟩
  intro j hj
  rw [emaUpdate_getD _ s.encoderParams s.targetParams j (hlen ▸ hj) hj]
  ring

/-- Witness for C1 at a concrete module state and input. -/
theorem forward_ema_update_witness :
    (I_JEPA.forward testNets testState testInputs).1.targetParams =
      emaUpdate (momValue testState.sched.numEpochs testState.sched.idx)
        testState.encoderParams testState.targetParams ∧
    (∀ j : ℕ, j < testState.targetParams.length →
      ((I_JEPA.forward testNets testState testInputs).1.targetParams.getD j default).data =
        momValue testState.sched.numEpochs testState.sched.idx *
          (testState.targetParams.getD j default).data +
          (1 - momValue testState.sched.numEpochs testState.sched.idx) *
            (testState.encoderParams.getD j default).data) ∧
    (I_JEPA.forward testNets testState testInputs).2 =
      .ok (smooth_l1_loss
        (forward_context testNets (paramData testState.encoderParams)
          (paramData testState.predictorParams) testInputs)
        (forward_target testNets
          (paramData ((I_JEPA.forward testNets testState testInputs).1.targetParams))
          testInputs)) :=
  forward_ema_update testNets testState testInputs (by decide) (by decide)

/-- C2: for every input `(udata, masks_enc, masks_pred)` (and as long as the
momentum generator is not exhausted), `I_JEPA.forward` returns the smooth-L1
regression loss between `z` and `h`, where
`z = predictor(encoder(imgs, masks_enc), masks_enc, masks_pred)` is the
student prediction and `h` is the masked target built from the (EMA-updated)
target encoder. -/
theorem forward_smooth_l1_objective {Img : Type} (nets : Nets Img) (s : I_JEPA)
    (inp : Inputs Img) (hn : s.sched.idx < ipe * s.sched.numEpochs + 1) :
    (I_JEPA.forward nets s inp).2 =
      .ok (smooth_l1_loss
        (spec_student_prediction nets (paramData s.encoderParams)
          (paramData s.predictorParams) inp)
        (forward_target nets
          (paramData (emaUpdate (momValue s.sched.numEpochs s.sched.idx)
            s.encoderParams s.targetParams)) inp)) := by
  rw [forward_eq_of_lt nets s inp hn]
  simp [forward_context, spec_student_prediction]

/-- Witness for C2 at a concrete module state and input. -/
theorem forward_smooth_l1_objective_witness :
    (I_JEPA.forward testNets testState testInputs).2 =
      .ok (smooth_l1_loss
        (spec_student_prediction testNets (paramData testState.encoderParams)
          (paramData testState.predictorParams) testInputs)
        (forward_target testNets
          (paramData (emaUpdate (momValue testState.sched.numEpochs testState.sched.idx)
            testState.encoderParams testState.targetParams)) testInputs)) :=
  forward_smooth_l1_objective testNets testState testInputs (by decide)

/-- C3: the prediction targets `h` in `I_JEPA.forward` are exactly the
target-encoder output on the full images, layer-normalised over the feature
dimension, masked with `apply_masks` by `masks_pred` and repeated
`len(masks_enc)` times per batch with `repeat_interleave_batch`; the
returned loss is the smooth-L1 loss against these targets, built from the
EMA-updated target parameters. -/
theorem forward_target_spec {Img : Type} (nets : Nets Img) (s : I_JEPA)
    (inp : Inputs Img) (hn : s.sched.idx < ipe * s.sched.numEpochs + 1) :
    (∀ td : List ℚ, forward_target nets td inp = spec_targets nets td inp) ∧
    (I_JEPA.forward nets s inp).2 =
      .ok (smooth_l1_loss
        (forward_context nets (paramData s.encoderParams)
          (paramData s.predictorParams) inp)
        (spec_targets nets
          (paramData (emaUpdate (momValue s.sched.numEpochs s.sched.idx)
            s.encoderParams s.targetParams)) inp)) := by
  have htd : ∀ td : List ℚ, forward_target nets td inp = spec_targets nets td inp := by
    intro td
    simp [forward_target, spec_targets, layerNormLast, List.length_map]
  refine ⟨htd, ?_⟩
  rw [forward_eq_of_lt nets s inp hn, htd]

/-- Witness for C3 at a concrete module state and input. -/
theorem forward_target_spec_witness :
    (∀ td : List ℚ, forward_target testNets td testInputs = spec_targets testNets td testInputs) ∧
    (I_JEPA.forward testNets testState testInputs).2 =
      .ok (smooth_l1_loss
        (forward_context testNets (paramData testState.encoderParams)
          (paramData testState.predictorParams) testInputs)
        (spec_targets testNets
          (paramData (emaUpdate (momValue testState.sched.numEpochs testState.sched.idx)
            testState.encoderParams testState.targetParams)) testInputs)) :=
  forward_target_spec testNets testState testInputs (by decide)

/-- The accumulating loop `correct += (predicted == y).sum()` counts exactly
the matching (prediction, label) pairs. -/
theorem foldl_correct_eq_countP (l : List (ℕ × ℕ)) :
    ∀ n : ℕ, l.foldl (fun acc pr => acc + if pr.1 = pr.2 then 1 else 0) n =
      n + l.countP (fun pr => pr.1 == pr.2) := by
  induction l with
  | nil => intro n; simp
  | cons p l ih =>
    intro n
    rw [List.foldl_cons, ih, List.countP_cons]
    by_cases h : p.1 = p.2
    · simp [h]
      omega
    · simp [h]

/-- `countCorrect` counts the matching pairs of the zipped lists. -/
theorem countCorrect_eq_countP (preds ys : List ℕ) :
    countCorrect preds ys = (preds.zip ys).countP (fun pr => pr.1 == pr.2) := by
  rw [countCorrect, foldl_correct_eq_countP]
  omega

/-- C4: `I_JEPA.fewshot_acc` implements the prototype-based few-shot
protocol — mean-pooled target-encoder embeddings, batch-normalised,
L2-normalised support and query vectors, one prototype per class as the
L2-normalised sum of that class's `numShots` support embeddings (5 classes),
argmax-of-inner-product prediction, and `100 * correct / total` over all
query examples. -/
theorem fewshot_acc_prototype_protocol {Img : Type} (nets : Nets Img) (s : I_JEPA)
    (numShots : ℕ) (inputs : List Img) (labels : List ℕ) :
    (I_JEPA.fewshot_acc nets s numShots inputs labels).1 =
      spec_fewshot_acc nets s numShots inputs labels := by
  simp only [I_JEPA.fewshot_acc, spec_fewshot_acc, countCorrect_eq_countP,
    spec_prototypes, groupSums, spec_predict, List.map_map, Function.comp]
  rfl

/-- The number of correct predictions never exceeds the number of labels. -/
theorem countCorrect_le_length (preds ys : List ℕ) :
    countCorrect preds ys ≤ ys.length := by
  rw [countCorrect_eq_countP]
  calc (preds.zip ys).countP (fun pr => pr.1 == pr.2)
      ≤ (preds.zip ys).length := List.countP_le_length _
    _ ≤ ys.length := by rw [List.length_zip]; omega

/-- C9: `I_JEPA.fewshot_acc` mutates no model parameter — the module state it
returns is exactly the one it was given — and whenever the query set is
non-empty the returned accuracy lies in `[0, 100]`. -/
theorem fewshot_acc_frame_and_range {Img : Type} (nets : Nets Img) (s : I_JEPA)
    (numShots : ℕ) (inputs : List Img) (labels : List ℕ)
    (hq : (split_support_query_set numShots
        (batchNorm1d nets.sqrtF (meanPool (nets.targetEncF (paramData s.targetParams) inputs)))
        labels).2.2.2 ≠ []) :
    (I_JEPA.fewshot_acc nets s numShots inputs labels).2 = s ∧
    0 ≤ (I_JEPA.fewshot_acc nets s numShots inputs labels).1 ∧
    (I_JEPA.fewshot_acc nets s numShots inputs labels).1 ≤ 100 := by
  refine ⟨rfl, ?_, ?_⟩ <;>
    simp only [I_JEPA.fewshot_acc]
  · positivity
  · set yq := (split_support_query_set numShots
      (batchNorm1d nets.sqrtF (meanPool (nets.targetEncF (paramData s.targetParams) inputs)))
      labels).2.2.2 with hyq
    have hlen : 0 < yq.length := List.length_pos.mpr hq
    have hlenQ : (0 : ℚ) < yq.length := by exact_mod_cast hlen
    rw [div_le_iff₀ hlenQ]
    have hc : countCorrect
        ((split_support_query_set numShots
          (batchNorm1d nets.sqrtF (meanPool (nets.targetEncF (paramData s.targetParams) inputs)))
          labels).2.1.map (l2normalize nets.sqrtF) |>.map
            (fun q => argmaxIdx ((((split_support_query_set numShots
              (batchNorm1d nets.sqrtF (meanPool (nets.targetEncF (paramData s.targetParams) inputs)))
              labels).1.map (l2normalize nets.sqrtF)) |> groupSums numShots |>.map
                (l2normalize nets.sqrtF)).map (fun w => dot q w)))) yq ≤ yq.length :=
      countCorrect_le_length _ _
    have hcQ : (countCorrect
        ((split_support_query_set numShots
          (batchNorm1d nets.sqrtF (meanPool (nets.targetEncF (paramData s.targetParams) inputs)))
          labels).2.1.map (l2normalize nets.sqrtF) |>.map
            (fun q => argmaxIdx ((((split_support_query_set numShots
              (batchNorm1d nets.sqrtF (meanPool (nets.targetEncF (paramData s.targetParams) inputs)))
              labels).1.map (l2normalize nets.sqrtF)) |> groupSums numShots |>.map
                (l2normalize nets.sqrtF)).map (fun w => dot q w)))) yq : ℚ) ≤ yq.length := by
      exact_mod_cast hc
    nlinarith [hcQ, hlenQ]

/-- Witness for C9: a two-image batch of one class, one shot, so the query
set holds one example. -/
theorem fewshot_acc_frame_and_range_witness :
    (I_JEPA.fewshot_acc testNets9 testState 1 [(), ()] [0, 0]).2 = testState ∧
    0 ≤ (I_JEPA.fewshot_acc testNets9 testState 1 [(), ()] [0, 0]).1 ∧
    (I_JEPA.fewshot_acc testNets9 testState 1 [(), ()] [0, 0]).1 ≤ 100 :=
  fewshot_acc_frame_and_range testNets9 testState 1 [(), ()] [0, 0] (by decide)

/-- C6: `I_JEPA.ft_fewshot_acc` is a linear probe — it fine-tunes only the
freshly created classifier head on features of a deep copy of the target
encoder computed once under `no_grad`, so after it returns, the module state
(in particular `self.encoder`, `self.predictor` and `self.target_encoder`)
is unchanged. -/
theorem ft_fewshot_acc_frame {Img : Type} (nets : Nets Img) (oracle : FtOracle)
    (s : I_JEPA) (loader : List (List Img × List ℕ)) (numShots numWays : ℕ) :
    (I_JEPA.ft_fewshot_acc nets oracle s loader numShots numWays).2 = s ∧
    (I_JEPA.ft_fewshot_acc nets oracle s loader numShots numWays).2.encoderParams =
      s.encoderParams ∧
    (I_JEPA.ft_fewshot_acc nets oracle s loader numShots numWays).2.predictorParams =
      s.predictorParams ∧
    (I_JEPA.ft_fewshot_acc nets oracle s loader numShots numWays).2.targetParams =
      s.targetParams :=
  ⟨rfl, rfl, rfl, rfl⟩

/-- The EMA loop never flips a `requires_grad` flag: a fully frozen target
parameter list stays fully frozen. -/
theorem allFrozen_emaUpdate (m : ℚ) :
    ∀ qs ks : List Param, allFrozen ks = true → allFrozen (emaUpdate m qs ks) = true := by
  intro qs
  induction qs with
  | nil => intro ks h; simpa [emaUpdate] using h
  | cons q qs ih =>
    intro ks h
    cases ks with
    | nil => simp [emaUpdate, allFrozen]
    | cons k ks =>
      simp only [allFrozen, List.all_cons, Bool.and_eq_true] at h
      simp only [emaUpdate, allFrozen, List.all_cons, Bool.and_eq_true]
      exact ⟨h.1, ih ks h.2⟩

/-- Case analysis of one operation on the target parameters: every operation
either leaves them untouched, or — only a successful `forward` — replaces
them by the EMA update with the momentum value just drawn. -/
theorem step_targetParams_cases {Img : Type} (nets : Nets Img) (s : I_JEPA) (op : Op Img) :
    (step nets s op).targetParams = s.targetParams ∨
    ∃ m sched2, s.sched.next = some (m, sched2) ∧
      (step nets s op).targetParams = emaUpdate m s.encoderParams s.targetParams := by
  cases op with
  | fwd inp =>
    by_cases h : s.sched.idx < ipe * s.sched.numEpochs + 1
    · right
      refine ⟨momValue s.sched.numEpochs s.sched.idx, ⟨s.sched.numEpochs, s.sched.idx + 1⟩,
        MomSched.next_eq_of_lt s.sched h, ?_⟩
      simp [step, forward_eq_of_lt nets s inp h]
    · left
      simp [step, forward_eq_of_ge nets s inp h]
  | fshot k x y => left; rfl
  | ftshot oracle l k w => left; rfl

/-- Frozen flags are preserved by every single operation. -/
theorem allFrozen_step {Img : Type} (nets : Nets Img) (s : I_JEPA) (op : Op Img)
    (h : allFrozen s.targetParams = true) :
    allFrozen (step nets s op).targetParams = true := by
  rcases step_targetParams_cases nets s op with heq | ⟨m, sched2, _, heq⟩
  · rw [heq]; exact h
  · rw [heq]; exact allFrozen_emaUpdate m _ _ h

/-- Frozen flags are preserved by every operation sequence. -/
theorem allFrozen_runOps {Img : Type} (nets : Nets Img) :
    ∀ (ops : List (Op Img)) (s : I_JEPA), allFrozen s.targetParams = true →
      allFrozen (runOps nets s ops).targetParams = true := by
  intro ops
  induction ops with
  | nil => intro s h; exact h
  | cons op ops ih =>
    intro s h
    simp only [runOps, List.foldl_cons]
    exact ih (step nets s op) (allFrozen_step nets s op h)

/-- C5: gradients never flow into the target encoder — every target-encoder
parameter has `requires_grad = False` from construction on, after any
sequence of module operations, and the only operation that ever changes the
target parameters is the EMA step of a successful `forward` (which runs
under `no_grad`). -/
theorem target_encoder_frozen {Img : Type} (nets : Nets Img) (E : ℕ) (e p : List ℚ) :
    allFrozen (I_JEPA.init E e p).targetParams = true ∧
    (∀ ops : List (Op Img),
      allFrozen (runOps nets (I_JEPA.init E e p) ops).targetParams = true) ∧
    (∀ (s : I_JEPA) (op : Op Img),
      (step nets s op).targetParams = s.targetParams ∨
      ∃ m sched2, s.sched.next = some (m, sched2) ∧
        (step nets s op).targetParams = emaUpdate m s.encoderParams s.targetParams) := by
  have hinit : allFrozen (I_JEPA.init E e p).targetParams = true := by
    simp [I_JEPA.init, setRequiresGradFalse, allFrozen, List.all_map, Function.comp]
  exact ⟨hinit, fun ops => allFrozen_runOps nets ops _ hinit,
    fun s op => step_targetParams_cases nets s op⟩

/-- C7: the momentum schedule is the arithmetic ramp
`0.996 + i * (1.0 - 0.996) / (ipe * num_epochs)`: it starts at `0.996`,
rises monotonically to exactly `1.0` at the last index `ipe * num_epochs`,
stays inside `[0.996, 1]`, and consequently every EMA update writes the
convex combination `m * teacher + (1 - m) * student`. -/
theorem momentum_schedule_props (E i j : ℕ) (hE : 0 < E) (hij : i ≤ j)
    (hj : j ≤ ipe * E) :
    momValue E i = 996 / 1000 + i * (1 - 996 / 1000) / (ipe * E) ∧
    momValue E 0 = 996 / 1000 ∧
    momValue E (ipe * E) = 1 ∧
    996 / 1000 ≤ momValue E i ∧
    momValue E i ≤ momValue E j ∧
    momValue E j ≤ 1 ∧
    (0 : ℚ) ≤ momValue E i ∧ momValue E i ≤ 1 ∧
    (∀ (qs ks : List Param) (n : ℕ), n < qs.length → n < ks.length →
      ((emaUpdate (momValue E i) qs ks).getD n default).data =
        momValue E i * (ks.getD n default).data +
          (1 - momValue E i) * (qs.getD n default).data) := by
  have hipe : (0 : ℚ) < (ipe : ℚ) := by norm_num [ipe]
  have hEQ : (0 : ℚ) < (E : ℚ) := by exact_mod_cast hE
  have hD : (0 : ℚ) < (ipe : ℚ) * E := by positivity
  have hc : (0 : ℚ) < 1 - 996 / 1000 := by norm_num
  have hij' : (i : ℚ) ≤ (j : ℚ) := by exact_mod_cast hij
  have hj' : (j : ℚ) ≤ (ipe : ℚ) * E := by exact_mod_cast hj
  have h0 : momValue E 0 = 996 / 1000 := by simp [momValue]
  have hmono : momValue E i ≤ momValue E j := by
    rw [momValue, momValue]
    gcongr
  have hle1 : ∀ n : ℕ, (n : ℚ) ≤ (ipe : ℚ) * E → momValue E n ≤ 1 := by
    intro n hn
    rw [momValue]
    have h1 : (n : ℚ) * (1 - 996 / 1000) / ((ipe : ℚ) * E) ≤
        ((ipe : ℚ) * E) * (1 - 996 / 1000) / ((ipe : ℚ) * E) := by gcongr
    have h2 : ((ipe : ℚ) * E) * (1 - 996 / 1000) / ((ipe : ℚ) * E) = 1 - 996 / 1000 := by
      field_simp
      ring
    linarith
  have hlast : momValue E (ipe * E) = 1 := by
    rw [momValue]
    push_cast
    field_simp
    ring
  have hlb : 996 / 1000 ≤ momValue E i := by
    rw [momValue]
    have : (0 : ℚ) ≤ (i : ℚ) * (1 - 996 / 1000) / ((ipe : ℚ) * E) := by positivity
    linarith
  refine ⟨rfl, h0, hlast, hlb, hmono, hle1 j hj',
    by linarith, le_trans hmono (hle1 j hj'), ?_⟩
  intro qs ks n hq hk
  rw [emaUpdate_getD _ qs ks n hq hk]
  ring

/-- Witness for C7 at one epoch, from the first to the last schedule index. -/
theorem momentum_schedule_props_witness :
    momValue 1 0 = 996 / 1000 + (0 : ℕ) * (1 - 996 / 1000) / (ipe * 1) ∧
    momValue 1 0 = 996 / 1000 ∧
    momValue 1 (ipe * 1) = 1 ∧
    996 / 1000 ≤ momValue 1 0 ∧
    momValue 1 0 ≤ momValue 1 9600 ∧
    momValue 1 9600 ≤ 1 ∧
    (0 : ℚ) ≤ momValue 1 0 ∧ momValue 1 0 ≤ 1 ∧
    (∀ (qs ks : List Param) (n : ℕ), n < qs.length → n < ks.length →
      ((emaUpdate (momValue 1 0) qs ks).getD n default).data =
        momValue 1 0 * (ks.getD n default).data +
          (1 - momValue 1 0) * (qs.getD n default).data) :=
  momentum_schedule_props 1 0 9600 (by decide) (by decide) (by norm_num [ipe])

/-- As long as the generator lasts, every `forward` call succeeds, and the
scheduler index counts the calls. -/
theorem runForwards_all_ok {Img : Type} (nets : Nets Img) :
    ∀ (L : List (Inputs Img)) (s : I_JEPA),
      s.sched.idx + L.length ≤ ipe * s.sched.numEpochs + 1 →
      (runForwards nets s L).2 = L.length ∧
      (runForwards nets s L).1.sched = ⟨s.sched.numEpochs, s.sched.idx + L.length⟩ := by
  intro L
  induction L with
  | nil => intro s h; exact ⟨rfl, rfl⟩
  | cons inp L ih =>
    intro s h
    have hlt : s.sched.idx < ipe * s.sched.numEpochs + 1 := by
      simp only [List.length_cons] at h
      omega
    rw [runForwards, forward_eq_of_lt nets s inp hlt]
    have hih := ih ⟨s.encoderParams, s.predictorParams,
      emaUpdate (momValue s.sched.numEpochs s.sched.idx) s.encoderParams s.targetParams,
      ⟨s.sched.numEpochs, s.sched.idx + 1⟩⟩ (by simp only [List.length_cons] at h; simpa using by omega)
    refine ⟨by simpa using hih.1, ?_⟩
    rw [hih.2]
    simp only [List.length_cons]
    congr 1
    omega

/-- The success count of a forward loop never exceeds what is left of the
generator. -/
theorem runForwards_count_le {Img : Type} (nets : Nets Img) :
    ∀ (L : List (Inputs Img)) (s : I_JEPA),
      (runForwards nets s L).2 ≤ (ipe * s.sched.numEpochs + 1) - s.sched.idx := by
  intro L
  induction L with
  | nil => intro s; simp [runForwards]
  | cons inp L ih =>
    intro s
    by_cases hlt : s.sched.idx < ipe * s.sched.numEpochs + 1
    · rw [runForwards, forward_eq_of_lt nets s inp hlt]
      have hih := ih ⟨s.encoderParams, s.predictorParams,
        emaUpdate (momValue s.sched.numEpochs s.sched.idx) s.encoderParams s.targetParams,
        ⟨s.sched.numEpochs, s.sched.idx + 1⟩⟩
      simp only at hih ⊢
      omega
    · rw [runForwards, forward_eq_of_ge nets s inp hlt]
      simp

/-- C8: on a module built for `num_epochs` epochs, `forward` can succeed at
most `ipe * num_epochs + 1` times; a list of exactly that many inputs is
processed in full, and the very next call raises `StopIteration` (`error`)
with the module state — in particular every parameter — left untouched. -/
theorem forward_generator_exhaustion {Img : Type} (nets : Nets Img) (E : ℕ)
    (e p : List ℚ) (L : List (Inputs Img)) (hL : L.length = ipe * E + 1) :
    (∀ L' : List (Inputs Img),
      (runForwards nets (I_JEPA.init E e p) L').2 ≤ ipe * E + 1) ∧
    (runForwards nets (I_JEPA.init E e p) L).2 = L.length ∧
    (∀ inp : Inputs Img,
      I_JEPA.forward nets (runForwards nets (I_JEPA.init E e p) L).1 inp =
        ((runForwards nets (I_JEPA.init E e p) L).1, .error ())) := by
  have hsched : (I_JEPA.init E e p).sched = ⟨E, 0⟩ := rfl
  have hok := runForwards_all_ok nets L (I_JEPA.init E e p) (by simp [hsched, hL])
  refine ⟨?_, hok.1, ?_⟩
  · intro L'
    have := runForwards_count_le nets L' (I_JEPA.init E e p)
    simp [hsched] at this
    omega
  · intro inp
    apply forward_eq_of_ge
    rw [hok.2, hsched]
    simp [hL]

/-- Witness for C8: one epoch and a list of exactly `ipe + 1 = 9601` inputs. -/
theorem forward_generator_exhaustion_witness :
    (∀ L' : List (Inputs Unit),
      (runForwards testNets (I_JEPA.init 1 [2, 5] [7]) L').2 ≤ ipe * 1 + 1) ∧
    (runForwards testNets (I_JEPA.init 1 [2, 5] [7])
      (List.replicate 9601 testInputs)).2 = (List.replicate 9601 testInputs).length ∧
    (∀ inp : Inputs Unit,
      I_JEPA.forward testNets (runForwards testNets (I_JEPA.init 1 [2, 5] [7])
        (List.replicate 9601 testInputs)).1 inp =
        ((runForwards testNets (I_JEPA.init 1 [2, 5] [7])
          (List.replicate 9601 testInputs)).1, .error ())) :=
  forward_generator_exhaustion testNets 1 [2, 5] [7]
    (List.replicate 9601 testInputs) (by norm_num [ipe])

end IJepa
